import Mathlib

/-!
# SAP-1 microcode virtual machine

A shallow embedding of `virtual_machine.cpp`: the process-wide variables become
one `State` record, every stage function becomes a function on that record.

Conventions of the embedding

* `uint8_t` and `uint16_t` cells are natural numbers; an increment or an
  addition is followed by an explicit `% 256`, a subtraction is computed in
  `Int` (C integer promotion) and then reduced `% 256`.
* `control_word & M_X` in a condition is `sig cw M_X`, i.e. `cw &&& M_X ≠ 0`.
* `memory` is the 16 cell array. Indexing it with an index outside the array
  is undefined in C; the stage that indexes it returns `none` there.
* The labels written `case: OC_LDA:` in the source are read as the ordinary
  labels `case OC_LDA:`.
* A `switch` arm without `break` continues into the next arm; the embedding
  performs the assignments of the arms it runs through, in order.
-/

namespace Sap1

/-! ## Control signals and opcodes -/

def M_HLT : Nat := 0x0001
def M_MI  : Nat := 0x0002
def M_RO  : Nat := 0x0004
def M_RI  : Nat := 0x0008
def M_IO  : Nat := 0x0010
def M_II  : Nat := 0x0020
def M_AO  : Nat := 0x0040
def M_AI  : Nat := 0x0080
def M_EO  : Nat := 0x0100
def M_SU  : Nat := 0x0200
def M_BI  : Nat := 0x0400
def M_OI  : Nat := 0x0800
def M_CE  : Nat := 0x1000
def M_CO  : Nat := 0x2000
def M_JP  : Nat := 0x4000
def M_FI  : Nat := 0x8000

def OC_NOP : Nat := 0b0000
def OC_LDA : Nat := 0b0001
def OC_ADD : Nat := 0b0010
def OC_SUB : Nat := 0b0011
def OC_STA : Nat := 0b0100
def OC_LDI : Nat := 0b0101
def OC_JMP : Nat := 0b0110
def OC_JC  : Nat := 0b0111
def OC_JZ  : Nat := 0b1000
def OC_OUT : Nat := 0b1110
def OC_HLT : Nat := 0b1111

/-! ## Machine state -/

/-- The global variables of the source, `registers[0]` and `registers[1]`
being `registers0` and `registers1`. -/
structure State where
  memory : List Nat
  registers0 : Nat
  registers1 : Nat
  program_counter : Nat
  ir : Nat
  mar : Nat
  operand : Nat
  alu_result : Nat
  bus : Nat
  micro_instruction_counter : Nat
  control_word : Nat
  flag_carry : Nat
  flag_zero : Nat
deriving DecidableEq, Repr

/-- The initialiser of `memory[16]`: `OC_ADD << 4 | 0x0F`, `OC_HLT`, thirteen
times `OC_NOP`, and `0b00000001`. -/
def memory : List Nat :=
  [OC_ADD <<< 4 ||| 0x0F, OC_HLT, OC_NOP, OC_NOP, OC_NOP, OC_NOP, OC_NOP, OC_NOP,
   OC_NOP, OC_NOP, OC_NOP, OC_NOP, OC_NOP, OC_NOP, OC_NOP, 0b00000001]

/-- The state at program start: `memory` as initialised, everything else zero. -/
def init : State :=
  { memory := memory, registers0 := 0, registers1 := 0, program_counter := 0,
    ir := 0, mar := 0, operand := 0, alu_result := 0, bus := 0,
    micro_instruction_counter := 0, control_word := 0,
    flag_carry := 0, flag_zero := 0 }

/-- The test `control_word & m` of the source: true when the masked value is
not zero. -/
def sig (cw m : Nat) : Bool := cw &&& m != 0

/-! ## Stages -/

/-- The inner `switch (opcode)` of `case 2`. -/
def fetch2 (s : State) (opcode : Nat) : State :=
  if opcode = OC_LDA ∨ opcode = OC_ADD ∨ opcode = OC_SUB ∨ opcode = OC_STA then
    { s with control_word := M_IO ||| M_MI }
  else if opcode = OC_LDI then
    { s with control_word := M_IO ||| M_AI }
  else if opcode = OC_JMP then
    { s with control_word := M_IO ||| M_JP }
  else if opcode = OC_JC then
    if s.flag_carry ≠ 0 then { s with control_word := M_IO ||| M_JP } else s
  else if opcode = OC_JZ then
    if s.flag_zero ≠ 0 then { s with control_word := M_IO ||| M_JP } else s
  else if opcode = OC_OUT then
    { s with control_word := M_AO ||| M_OI }
  else if opcode = OC_HLT then
    { s with control_word := M_HLT }
  else
    { s with control_word := 0 }

/-- The inner `switch (opcode)` of `case 3`. -/
def fetch3 (s : State) (opcode : Nat) : State :=
  if opcode = OC_LDA then
    { s with control_word := M_RO ||| M_AI }
  else if opcode = OC_ADD ∨ opcode = OC_SUB then
    { s with control_word := M_RO ||| M_BI }
  else if opcode = OC_STA then
    { s with control_word := M_AO ||| M_RI }
  else
    { s with control_word := 0 }

/-- The inner `switch (opcode)` of `case 4`. None of its arms ends in `break`:
entering at `OC_ADD` runs the three assignments, entering at `OC_SUB` the
last two, entering at `default` the last one. -/
def fetch4 (s : State) (opcode : Nat) : State :=
  let s1 := if opcode = OC_ADD then
      { s with control_word := M_EO ||| M_AI ||| M_FI } else s
  let s2 := if opcode = OC_ADD ∨ opcode = OC_SUB then
      { s1 with control_word := M_EO ||| M_BI ||| M_FI ||| M_SU } else s1
  { s2 with control_word := 0 }

/-- The microcode look-up `microcode_fetch`. `case 4` has no `break` after its
inner switch and continues into `default`, which resets the counter. -/
def microcode_fetch (s : State) : State :=
  let opcode := s.ir >>> 4
  match s.micro_instruction_counter with
  | 0 => { s with control_word := M_CO ||| M_MI }
  | 1 => { s with control_word := M_RO ||| M_II ||| M_CE }
  | 2 => fetch2 s opcode
  | 3 => fetch3 s opcode
  | 4 => { fetch4 s opcode with micro_instruction_counter := 0 }
  | _ => { s with micro_instruction_counter := 0 }

/-- The transfer stage `ram_module`; `none` when `memory[mar]` is indexed
outside the array. -/
def ram_module (s : State) : Option State := do
  let cw := s.control_word
  let s := if sig cw M_MI then { s with mar := s.bus } else s
  let s ← if sig cw M_RI then
      (if s.mar < s.memory.length
        then some { s with memory := s.memory.set s.mar s.bus } else none)
    else some s
  let s ← if sig cw M_RO then
      (match s.memory[s.mar]? with
        | some v => some { s with bus := v }
        | none => none)
    else some s
  let s := if sig cw M_AI then { s with registers0 := s.bus } else s
  let s := if sig cw M_AO then { s with bus := s.registers0 } else s
  let s := if sig cw M_BI then { s with registers1 := s.bus } else s
  let s := if sig cw M_II then { s with ir := s.bus } else s
  let s := if sig cw M_IO then { s with bus := s.ir &&& 0x0F } else s
  some s

/-- The program counter stage `clock`. -/
def clock (s : State) : State :=
  let cw := s.control_word
  let s := if sig cw M_CE then
      { s with program_counter := ((s.program_counter + 1) % 256) &&& 0x0F } else s
  let s := if sig cw M_JP then { s with program_counter := s.bus } else s
  s

/-- The stage `control`. -/
def control (s : State) : State :=
  let cw := s.control_word
  let s := if sig cw M_CO then { s with bus := 0x0F &&& s.program_counter } else s
  let s := if sig cw M_JP then { s with program_counter := s.bus } else s
  s

/-- The 8-bit difference `registers[0] - registers[1]` stored in a `uint8_t`. -/
def sub8 (a b : Nat) : Nat := (((a : Int) - (b : Int)) % 256).toNat

/-- The stage `alu`, with its locals `carry` and `zero`. -/
def alu (s : State) : State :=
  let cw := s.control_word
  let carry0 : Nat := 0
  let zero0 : Nat := 0
  let r : State × Nat × Nat :=
    if sig cw M_EO then
      let q : State × Nat :=
        if sig cw M_SU then
          ({ s with alu_result := sub8 s.registers0 s.registers1 },
            if s.registers0 < s.registers1 then 1 else 0)
        else
          ({ s with alu_result := (s.registers0 + s.registers1) % 256 },
            if s.registers0 > s.registers1 then 1 else 0)
      (q.1, q.2, if q.1.alu_result = 0 then 1 else 0)
    else (s, carry0, zero0)
  if sig cw M_FI then { r.1 with flag_carry := r.2.1, flag_zero := r.2.2 } else r.1

/-- One call of `microcode_execute`: the state it leaves and the value it
returns, or `none` when the transfer stage indexes outside `memory`. -/
def microcode_execute (s : State) : Option (State × Nat) :=
  let s := microcode_fetch s
  let s := { s with micro_instruction_counter := (s.micro_instruction_counter + 1) % 256 }
  match ram_module s with
  | none => none
  | some s =>
    let s := alu (control (clock s))
    some (s, if sig s.control_word M_HLT then 1 else 0)

/-- The first `n` consecutive calls of `microcode_execute` as the loop of
`main` makes them: the state after the last call and the value it returned. The
loop stops at the first call that returns a non-zero value. -/
def run : Nat → State → Option (State × Nat)
  | 0, s => some (s, 0)
  | n + 1, s =>
    match run n s with
    | none => none
    | some (s1, h) => if h ≠ 0 then some (s1, h) else microcode_execute s1

/-- A memory image whose first cell is `JC 0` and whose other cells are
`NOP`. -/
def jcImage : List Nat :=
  [OC_JC <<< 4, OC_NOP, OC_NOP, OC_NOP, OC_NOP, OC_NOP, OC_NOP, OC_NOP,
   OC_NOP, OC_NOP, OC_NOP, OC_NOP, OC_NOP, OC_NOP, OC_NOP, OC_NOP]

/-- The state two calls after program start on `jcImage`: `JC 0` is in the
instruction register, the carry flag is clear, the counter is 2. -/
def jcFetched : State :=
  { memory := jcImage, registers0 := 0, registers1 := 0, program_counter := 1,
    ir := 0x70, mar := 0, operand := 0, alu_result := 0, bus := 0x70,
    micro_instruction_counter := 2, control_word := M_RO ||| M_II ||| M_CE,
    flag_carry := 0, flag_zero := 0 }

/-- A memory image whose first cell is `LDI 3` and whose other cells are
`NOP`. -/
def ldiImage : List Nat :=
  [OC_LDI <<< 4 ||| 0x03, OC_NOP, OC_NOP, OC_NOP, OC_NOP, OC_NOP, OC_NOP, OC_NOP,
   OC_NOP, OC_NOP, OC_NOP, OC_NOP, OC_NOP, OC_NOP, OC_NOP, OC_NOP]

/-- The state two calls after program start on `ldiImage`: `LDI 3` is in the
instruction register and still on the bus, the counter is 2. -/
def ldiFetched : State :=
  { memory := ldiImage, registers0 := 0, registers1 := 0, program_counter := 1,
    ir := 0x53, mar := 0, operand := 0, alu_result := 0, bus := 0x53,
    micro_instruction_counter := 2, control_word := M_RO ||| M_II ||| M_CE,
    flag_carry := 0, flag_zero := 0 }

/-! ## Statement-by-statement form of the transfer stage

Each function below is one `if` statement of `ram_module`, with the control
word as a parameter; `ram_module_eq` shows that `ram_module` is their
composition in source order. -/

/-- `if (control_word & M_MI) mar = bus;` -/
def ramMI (cw : Nat) (s : State) : State :=
  if sig cw M_MI then { s with mar := s.bus } else s

/-- `if (control_word & M_RI) memory[mar] = bus;` -/
def ramRI (cw : Nat) (s : State) : Option State :=
  if sig cw M_RI then
    (if s.mar < s.memory.length
      then some { s with memory := s.memory.set s.mar s.bus } else none)
  else some s

/-- `if (control_word & M_RO) bus = memory[mar];` -/
def ramRO (cw : Nat) (s : State) : Option State :=
  if sig cw M_RO then
    (match s.memory[s.mar]? with
      | some v => some { s with bus := v }
      | none => none)
  else some s

/-- `if (control_word & M_AI) registers[0] = bus;` -/
def ramAI (cw : Nat) (s : State) : State :=
  if sig cw M_AI then { s with registers0 := s.bus } else s

/-- `if (control_word & M_AO) bus = registers[0];` -/
def ramAO (cw : Nat) (s : State) : State :=
  if sig cw M_AO then { s with bus := s.registers0 } else s

/-- `if (control_word & M_BI) registers[1] = bus;` -/
def ramBI (cw : Nat) (s : State) : State :=
  if sig cw M_BI then { s with registers1 := s.bus } else s

/-- `if (control_word & M_II) ir = bus;` -/
def ramII (cw : Nat) (s : State) : State :=
  if sig cw M_II then { s with ir := s.bus } else s

/-- `if (control_word & M_IO) bus = ir & 0x0F;` -/
def ramInstrOut (cw : Nat) (s : State) : State :=
  if sig cw M_IO then { s with bus := s.ir &&& 0x0F } else s

/-- The register statements of `ram_module` (AI, AO, BI, II, IO) in source
order. -/
def ramRegs (cw : Nat) (s : State) : State :=
  ramInstrOut cw (ramII cw (ramBI cw (ramAO cw (ramAI cw s))))

/-- The state after `n` consecutive calls of `microcode_execute`, whatever
the calls return; `none` when one of them indexes outside `memory`. -/
def calls : Nat → State → Option State
  | 0, s => some s
  | n + 1, s => (calls n s).bind fun t => (microcode_execute t).map Prod.fst

/-- The program start state with an arbitrary memory image. -/
def initWith (mem : List Nat) : State := { init with memory := mem }

/-- Facts that hold in every state reached from program start: PC is a 4-bit
value, the flag latches and `alu_result` are 0, the counter is at most 4, and
at counter 2 the control word is the one of fetch step 1. -/
def Inv (s : State) : Prop :=
  s.program_counter ≤ 15 ∧ s.flag_carry = 0 ∧ s.flag_zero = 0 ∧ s.alu_result = 0 ∧
  s.micro_instruction_counter ≤ 4 ∧
  (s.micro_instruction_counter = 2 → s.control_word = M_RO ||| M_II ||| M_CE)

/-- The cells that only the decoder, the PC stages and the ALU write, together
with `memory` and `mar`, agree in `s` and `t`. -/
def SameCore (s t : State) : Prop :=
  t.control_word = s.control_word ∧ t.program_counter = s.program_counter ∧
  t.micro_instruction_counter = s.micro_instruction_counter ∧
  t.flag_carry = s.flag_carry ∧ t.flag_zero = s.flag_zero ∧
  t.alu_result = s.alu_result ∧ t.memory = s.memory ∧ t.mar = s.mar

/-- The state three calls after program start on the bundled image: step 2
of `ADD 15` has latched the instruction byte 0x2F into MAR. -/
def addLatched : State :=
  { memory := memory, registers0 := 0, registers1 := 0, program_counter := 1,
    ir := 0x2F, mar := 0x2F, operand := 0, alu_result := 0, bus := 0x0F,
    micro_instruction_counter := 3, control_word := M_IO ||| M_MI,
    flag_carry := 0, flag_zero := 0 }

/-- `STA 5` fetched, at counter 2: the fetched byte 0x45 is in IR and still
on the bus, Register A holds 7, memory is `STA 5` followed by `NOP`s. -/
def staFetched : State :=
  { memory := [OC_STA <<< 4 ||| 0x05, OC_NOP, OC_NOP, OC_NOP, OC_NOP, OC_NOP, OC_NOP,
      OC_NOP, OC_NOP, OC_NOP, OC_NOP, OC_NOP, OC_NOP, OC_NOP, OC_NOP, OC_NOP],
    registers0 := 7, registers1 := 0, program_counter := 1,
    ir := 0x45, mar := 0, operand := 0, alu_result := 0, bus := 0x45,
    micro_instruction_counter := 2, control_word := M_RO ||| M_II ||| M_CE,
    flag_carry := 0, flag_zero := 0 }

/-! ## Helper lemmas -/

/-- With no signal asserted every stage after the decoder is the identity. -/
theorem stages_idle (t : State) (h : t.control_word = 0) :
    ram_module t = some t ∧ clock t = t ∧ control t = t ∧ alu t = t := by
  obtain ⟨mem, a, b, pc, ir, mar, op, res, bus, c, cw, fc, fz⟩ := t
  simp only at h
  subst h
  simp [ram_module, clock, control, alu, sig, M_MI, M_RI, M_RO, M_AI, M_AO, M_BI, M_II,
    M_IO, M_CE, M_JP, M_CO, M_EO, M_FI, M_SU]

/-- The stored 8-bit difference, in natural numbers. -/
theorem sub8_eq (a b : Nat) (ha : a < 256) (hb : b < 256) :
    sub8 a b = (a + 256 - b) % 256 := by
  unfold sub8
  omega

/-! ## The bundled program -/

/-- C1: the run of the bundled program does not reach a call that returns
halted. The first three calls return 0; the third one latches the whole
instruction byte 0x2F into MAR, so the fourth call indexes `memory` outside
its 16 cells, and no later call exists. -/
theorem bundled_run_never_halts :
    (run 1 init).map Prod.snd = some 0 ∧
    (run 2 init).map Prod.snd = some 0 ∧
    (run 3 init).map Prod.snd = some 0 ∧
    (run 3 init).map (fun p => (p.1.mar, p.1.registers0, p.1.program_counter))
      = some (0x2F, 0, 1) ∧
    ∀ n, run (n + 4) init = none := by
  refine ⟨by decide, by decide, by decide, by decide, ?_⟩
  intro n
  induction n with
  | zero => decide
  | succ k ih =>
    have e : k + 1 + 4 = (k + 4) + 1 := by omega
    rw [e, run, ih]

/-! ## Fetch -/

/-- C2: at counter 0 with PC = 0 and 1 on the bus, two calls load IR from
cell 1 (the cell the stale bus value names), not from cell 0: the opcode in IR
is 0 while the opcode stored at the old PC is 2. PC is 1 afterwards. -/
theorem fetch_reads_cell_named_by_stale_bus :
    ({ init with bus := 1 } : State).micro_instruction_counter = 0 ∧
    ({ init with bus := 1 } : State).program_counter = 0 ∧
    (run 2 { init with bus := 1 }).map
        (fun p => (p.1.mar, p.1.ir >>> 4, p.1.program_counter)) = some (1, 0, 1) ∧
    (init.memory.getD 0 0) >>> 4 = 2 := by
  decide

/-! ## Single instructions -/

/-- C3: at counter 2 with `LDI 3` in IR and the fetched byte 0x53 still on the
bus (the state `ldiFetched`, reached two calls after program start on
`ldiImage`), one call loads Register A with 0x53, the bus value from before
the call, while the operand nibble is 3. Both flags keep their values. -/
theorem ldi_loads_stale_bus :
    run 2 { init with memory := ldiImage } = some (ldiFetched, 0) ∧
    ldiFetched.micro_instruction_counter = 2 ∧
    ldiFetched.ir >>> 4 = OC_LDI ∧ ldiFetched.ir &&& 0x0F = 3 ∧
    (microcode_execute ldiFetched).map
        (fun p => (p.1.registers0, p.1.flag_carry, p.1.flag_zero, p.2)) = some (0x53, 0, 0, 0) := by
  decide

/-- C4: under EO|AI|FI the addition stores the sum modulo 256, but the carry
latch receives the comparison A > B: with A = 1, B = 0 the sum 1 fits in 8
bits and carry is 1; with A = 1, B = 0xFF the sum is 256 and carry is 0. -/
theorem alu_add_carry_is_comparison :
    (alu { init with registers0 := 1, registers1 := 0,
                     control_word := M_EO ||| M_AI ||| M_FI }).alu_result = 1 ∧
    (alu { init with registers0 := 1, registers1 := 0,
                     control_word := M_EO ||| M_AI ||| M_FI }).flag_carry = 1 ∧
    (alu { init with registers0 := 1, registers1 := 0xFF,
                     control_word := M_EO ||| M_AI ||| M_FI }).alu_result = 0 ∧
    (alu { init with registers0 := 1, registers1 := 0xFF,
                     control_word := M_EO ||| M_AI ||| M_FI }).flag_carry = 0 ∧
    (alu { init with registers0 := 1, registers1 := 0xFF,
                     control_word := M_EO ||| M_AI ||| M_FI }).flag_zero = 1 := by
  decide

/-- C5: with EO, SU and FI asserted and 8-bit register values A and B, `alu`
stores (A - B) mod 256 in `alu_result`, sets `flag_carry` to 1 exactly when
A < B (and to 0 otherwise), and sets `flag_zero` to 1 exactly when the result
is 0 (and to 0 otherwise), which is exactly when A = B. -/
theorem alu_subtract (s : State)
    (hA : s.registers0 < 256) (hB : s.registers1 < 256)
    (hEO : sig s.control_word M_EO = true) (hSU : sig s.control_word M_SU = true)
    (hFI : sig s.control_word M_FI = true) :
    ((alu s).alu_result : Int) = ((s.registers0 : Int) - (s.registers1 : Int)) % 256 ∧
    (alu s).alu_result = (s.registers0 + 256 - s.registers1) % 256 ∧
    ((alu s).flag_carry = 1 ↔ s.registers0 < s.registers1) ∧
    ((alu s).flag_carry = 0 ↔ ¬ s.registers0 < s.registers1) ∧
    ((alu s).flag_zero = 1 ↔ (alu s).alu_result = 0) ∧
    ((alu s).flag_zero = 0 ↔ (alu s).alu_result ≠ 0) ∧
    ((alu s).alu_result = 0 ↔ s.registers0 = s.registers1) := by
  have hr : (alu s).alu_result = sub8 s.registers0 s.registers1 := by
    simp [alu, hEO, hSU, hFI]
  have hc : (alu s).flag_carry = if s.registers0 < s.registers1 then 1 else 0 := by
    simp [alu, hEO, hSU, hFI]
  have hz : (alu s).flag_zero = if sub8 s.registers0 s.registers1 = 0 then 1 else 0 := by
    simp [alu, hEO, hSU, hFI]
  have h8 := sub8_eq s.registers0 s.registers1 hA hB
  rw [hr, hc, hz, h8]
  refine ⟨by omega, rfl, ?_, ?_, ?_, ?_, by omega⟩
  · by_cases h : s.registers0 < s.registers1 <;> simp [h]
  · by_cases h : s.registers0 < s.registers1 <;> simp [h]
  · by_cases h : (s.registers0 + 256 - s.registers1) % 256 = 0 <;> simp [h]
  · by_cases h : (s.registers0 + 256 - s.registers1) % 256 = 0 <;> simp [h]

/-- Witness of C5 at A = 3, B = 5 under EO|BI|FI|SU: result 254, carry 1. -/
theorem alu_subtract_witness :
    ((alu { init with registers0 := 3, registers1 := 5,
                      control_word := M_EO ||| M_BI ||| M_FI ||| M_SU }).alu_result : Int)
      = ((3 : Int) - 5) % 256 :=
  (alu_subtract { init with registers0 := 3, registers1 := 5,
                            control_word := M_EO ||| M_BI ||| M_FI ||| M_SU }
    (by decide) (by decide) (by decide) (by decide) (by decide)).1

/-- C6: at counter 2 with `JC 0` in IR, carry clear and the control word
RO|II|CE left by the preceding fetch step (the state `jcFetched`, reached two
calls after program start on `jcImage`), one call leaves the control word
RO|II|CE, not 0, and advances PC from 1 to 2. -/
theorem jc_not_taken_keeps_previous_word :
    run 2 { init with memory := jcImage } = some (jcFetched, 0) ∧
    jcFetched.ir >>> 4 = OC_JC ∧ jcFetched.flag_carry = 0 ∧
    jcFetched.program_counter = 1 ∧
    (microcode_execute jcFetched).map
        (fun p => (p.1.control_word, p.1.program_counter)) = some (0x1024, 2) := by
  decide

/-- C7: at counter 2 with opcode HLT in IR, `microcode_execute` returns 1 and
leaves the control word equal to M_HLT = 0x0001; the counter becomes 3 and
every other cell of the state (memory, both registers, IR, MAR, PC, bus,
alu_result, both flags) keeps its value. -/
theorem hlt_step (s : State) (hc : s.micro_instruction_counter = 2)
    (hop : s.ir >>> 4 = OC_HLT) :
    microcode_execute s =
      some ({ s with control_word := 0x0001, micro_instruction_counter := 3 }, 1) := by
  obtain ⟨mem, a, b, pc, ir, mar, op, res, bus, c, cw, fc, fz⟩ := s
  simp only at hc hop
  subst hc
  simp [microcode_execute, microcode_fetch, fetch2, hop, OC_LDA, OC_ADD, OC_SUB, OC_STA, OC_LDI,
    OC_JMP, OC_JC, OC_JZ, OC_OUT, OC_HLT, M_HLT, ram_module, sig, M_MI, M_RI, M_RO, M_AI, M_AO,
    M_BI, M_II, M_IO, clock, control, alu, M_CE, M_JP, M_CO, M_EO, M_FI, M_SU]

/-- Witness of C7: `HLT` in IR at counter 2 on the bundled memory image. -/
theorem hlt_step_witness :
    microcode_execute { init with micro_instruction_counter := 2, ir := 0xF0 } =
      some ({ init with ir := 0xF0, control_word := 0x0001,
                        micro_instruction_counter := 3 }, 1) :=
  hlt_step { init with micro_instruction_counter := 2, ir := 0xF0 } rfl (by decide)

/-! ## The decoder table -/

/-- C8: the control word `microcode_fetch` leaves at counters 0 to 3, for
every IR, flag values and previous control word: CO|MI = 0x2002 at counter 0,
RO|II|CE = 0x1024 at counter 1; at counter 2 IO|MI = 0x0012 for LDA, ADD, SUB
and STA, IO|AI = 0x0090 for LDI, IO|JP = 0x4010 for JMP and for JC, JZ with
their flag set, AO|OI = 0x0840 for OUT, HLT = 0x0001 for HLT; at counter 3
RO|AI = 0x0084 for LDA, RO|BI = 0x0404 for ADD and SUB, AO|RI = 0x0048 for
STA. -/
theorem decoder_table_steps_0_to_3 (s : State) :
    (s.micro_instruction_counter = 0 → (microcode_fetch s).control_word = 0x2002) ∧
    (s.micro_instruction_counter = 1 → (microcode_fetch s).control_word = 0x1024) ∧
    (s.micro_instruction_counter = 2 →
      ((s.ir >>> 4 = OC_LDA ∨ s.ir >>> 4 = OC_ADD ∨ s.ir >>> 4 = OC_SUB ∨ s.ir >>> 4 = OC_STA) →
        (microcode_fetch s).control_word = 0x0012) ∧
      (s.ir >>> 4 = OC_LDI → (microcode_fetch s).control_word = 0x0090) ∧
      (s.ir >>> 4 = OC_JMP → (microcode_fetch s).control_word = 0x4010) ∧
      (s.ir >>> 4 = OC_JC → s.flag_carry ≠ 0 → (microcode_fetch s).control_word = 0x4010) ∧
      (s.ir >>> 4 = OC_JZ → s.flag_zero ≠ 0 → (microcode_fetch s).control_word = 0x4010) ∧
      (s.ir >>> 4 = OC_OUT → (microcode_fetch s).control_word = 0x0840) ∧
      (s.ir >>> 4 = OC_HLT → (microcode_fetch s).control_word = 0x0001)) ∧
    (s.micro_instruction_counter = 3 →
      (s.ir >>> 4 = OC_LDA → (microcode_fetch s).control_word = 0x0084) ∧
      ((s.ir >>> 4 = OC_ADD ∨ s.ir >>> 4 = OC_SUB) →
        (microcode_fetch s).control_word = 0x0404) ∧
      (s.ir >>> 4 = OC_STA → (microcode_fetch s).control_word = 0x0048)) ∧
    (M_CO ||| M_MI = 0x2002 ∧ M_RO ||| M_II ||| M_CE = 0x1024 ∧ M_IO ||| M_MI = 0x0012 ∧
      M_IO ||| M_AI = 0x0090 ∧ M_IO ||| M_JP = 0x4010 ∧ M_AO ||| M_OI = 0x0840 ∧
      M_HLT = 0x0001 ∧ M_RO ||| M_AI = 0x0084 ∧ M_RO ||| M_BI = 0x0404 ∧
      M_AO ||| M_RI = 0x0048) := by
  obtain ⟨mem, a, b, pc, ir, mar, op, res, bus, c, cw, fc, fz⟩ := s
  refine ⟨?_, ?_, ?_, ?_, by decide⟩
  · intro h
    simp only at h
    subst h
    rfl
  · intro h
    simp only at h
    subst h
    rfl
  · intro h
    simp only at h
    subst h
    refine ⟨?_, ?_, ?_, ?_, ?_, ?_, ?_⟩
    · intro ho
      simp only at ho
      rcases ho with ho | ho | ho | ho <;>
        simp [microcode_fetch, fetch2, ho, OC_LDA, OC_ADD, OC_SUB, OC_STA, M_IO, M_MI]
    · intro ho
      simp only at ho
      simp [microcode_fetch, fetch2, ho, OC_LDA, OC_ADD, OC_SUB, OC_STA, OC_LDI, M_IO, M_AI]
    · intro ho
      simp only at ho
      simp [microcode_fetch, fetch2, ho, OC_LDA, OC_ADD, OC_SUB, OC_STA, OC_LDI, OC_JMP,
        M_IO, M_JP]
    · intro ho hf
      simp only at ho hf
      simp [microcode_fetch, fetch2, ho, hf, OC_LDA, OC_ADD, OC_SUB, OC_STA, OC_LDI, OC_JMP,
        OC_JC, M_IO, M_JP]
    · intro ho hf
      simp only at ho hf
      simp [microcode_fetch, fetch2, ho, hf, OC_LDA, OC_ADD, OC_SUB, OC_STA, OC_LDI, OC_JMP,
        OC_JC, OC_JZ, M_IO, M_JP]
    · intro ho
      simp only at ho
      simp [microcode_fetch, fetch2, ho, OC_LDA, OC_ADD, OC_SUB, OC_STA, OC_LDI, OC_JMP,
        OC_JC, OC_JZ, OC_OUT, M_AO, M_OI]
    · intro ho
      simp only at ho
      simp [microcode_fetch, fetch2, ho, OC_LDA, OC_ADD, OC_SUB, OC_STA, OC_LDI, OC_JMP,
        OC_JC, OC_JZ, OC_OUT, OC_HLT, M_HLT]
  · intro h
    simp only at h
    subst h
    refine ⟨?_, ?_, ?_⟩
    · intro ho
      simp only at ho
      simp [microcode_fetch, fetch3, ho, OC_LDA, M_RO, M_AI]
    · intro ho
      simp only at ho
      rcases ho with ho | ho <;>
        simp [microcode_fetch, fetch3, ho, OC_LDA, OC_ADD, OC_SUB, M_RO, M_BI]
    · intro ho
      simp only at ho
      simp [microcode_fetch, fetch3, ho, OC_LDA, OC_ADD, OC_SUB, OC_STA, M_AO, M_RI]

/-- Witness of C8: the decoder at program start (counter 0) and at counter 2
with `LDI 3` in IR. -/
theorem decoder_table_witness :
    (microcode_fetch init).control_word = 0x2002 ∧
    (microcode_fetch { init with micro_instruction_counter := 2, ir := 0x53 }).control_word
      = 0x0090 :=
  ⟨(decoder_table_steps_0_to_3 init).1 rfl,
   ((decoder_table_steps_0_to_3
      { init with micro_instruction_counter := 2, ir := 0x53 }).2.2.1 rfl).2.1 (by decide)⟩

/-- C9: at counter 4 the decoder leaves the control word 0 whatever the
opcode, because the arms of the inner switch run into `default`: with `ADD 15`
in IR the word is 0, not EO|AI|FI = 0x8180, and with `SUB 15` in IR it is 0,
not EO|BI|FI|SU = 0x8700. -/
theorem step4_word_is_zero :
    (microcode_fetch { init with micro_instruction_counter := 4, ir := 0x2F }).control_word = 0 ∧
    (microcode_fetch { init with micro_instruction_counter := 4, ir := 0x3F }).control_word = 0 ∧
    (0x2F : Nat) >>> 4 = OC_ADD ∧ (0x3F : Nat) >>> 4 = OC_SUB ∧
    M_EO ||| M_AI ||| M_FI = 0x8180 ∧ M_EO ||| M_BI ||| M_FI ||| M_SU = 0x8700 ∧
    ∀ (s : State) (opcode : Nat), (fetch4 s opcode).control_word = 0 := by
  refine ⟨by decide, by decide, by decide, by decide, by decide, by decide, ?_⟩
  intro s opcode
  rfl

/-- C10: for an IR whose opcode is NOP or one of the unused values 9 to 13,
at counter 2, 3 or 4, whatever the flags and the previous control word,
`microcode_fetch` leaves the control word 0, and `microcode_execute` returns
0 with a state that differs from the one before the call only in the control
word (now 0) and the counter (3, 4 and 1): memory, both registers, IR, MAR,
PC, bus, alu_result and both flags keep their values. -/
theorem unrecognized_opcode_is_nop (s : State)
    (hop : s.ir >>> 4 = OC_NOP ∨ (9 ≤ s.ir >>> 4 ∧ s.ir >>> 4 ≤ 13))
    (hc : s.micro_instruction_counter = 2 ∨ s.micro_instruction_counter = 3 ∨
      s.micro_instruction_counter = 4) :
    (microcode_fetch s).control_word = 0 ∧
    microcode_execute s =
      some ({ s with control_word := 0,
                     micro_instruction_counter :=
                       if s.micro_instruction_counter = 4 then 1
                       else s.micro_instruction_counter + 1 }, 0) := by
  obtain ⟨mem, a, b, pc, ir, mar, op, res, bus, c, cw, fc, fz⟩ := s
  simp only at hop hc
  have ho : ir >>> 4 = 0 ∨ ir >>> 4 = 9 ∨ ir >>> 4 = 10 ∨ ir >>> 4 = 11 ∨
      ir >>> 4 = 12 ∨ ir >>> 4 = 13 := by
    unfold OC_NOP at hop
    omega
  rcases hc with hc | hc | hc <;> subst hc <;>
    rcases ho with ho | ho | ho | ho | ho | ho <;>
    simp [microcode_execute, microcode_fetch, fetch2, fetch3, fetch4, ho, OC_LDA, OC_ADD,
      OC_SUB, OC_STA, OC_LDI, OC_JMP, OC_JC, OC_JZ, OC_OUT, OC_HLT, M_HLT, ram_module, sig,
      M_MI, M_RI, M_RO, M_AI, M_AO, M_BI, M_II, M_IO, clock, control, alu, M_CE, M_JP, M_CO,
      M_EO, M_FI, M_SU]

/-- Witness of C10: the unused opcode 1001 at counter 3. -/
theorem unrecognized_opcode_witness :
    microcode_execute { init with micro_instruction_counter := 3, ir := 0x9A, bus := 7,
                                  control_word := 0x1024 } =
      some ({ init with micro_instruction_counter := 4, ir := 0x9A, bus := 7,
                        control_word := 0 }, 0) :=
  (unrecognized_opcode_is_nop
    { init with micro_instruction_counter := 3, ir := 0x9A, bus := 7, control_word := 0x1024 }
    (Or.inr (by decide)) (Or.inr (Or.inl rfl))).2

/-! ## Helper lemmas on the stages -/

/-- Masking with 0x0F is the remainder modulo 16. -/
theorem and_0F (x : Nat) : x &&& 0x0F = x % 16 :=
  Nat.and_pow_two_sub_one_eq_mod x 4

/-- The transfer stage is the composition of its statements. -/
theorem ram_module_eq (s : State) :
    ram_module s =
      (ramRI s.control_word (ramMI s.control_word s)).bind fun s2 =>
        (ramRO s.control_word s2).bind fun s3 => some (ramRegs s.control_word s3) := by
  unfold ram_module
  lift_lets
  intro cw s1 jp jp2
  change _ = (ramRI cw s1).bind fun s2 => (ramRO cw s2).bind fun s3 => some (ramRegs cw s3)
  have hjp2 : ∀ x, jp2 x = (ramRO cw x).bind fun s3 => some (ramRegs cw s3) := by
    intro x
    show (if sig cw M_RO = true then _ else _) = _
    unfold ramRO
    cases sig cw M_RO <;> rfl
  show (if sig cw M_RI = true then _ else _) = _
  unfold ramRI
  cases sig cw M_RI
  · exact hjp2 s1
  · rw [if_pos rfl, if_pos rfl]
    by_cases hlt : s1.mar < s1.memory.length
    · rw [if_pos hlt]
      exact hjp2 _
    · rw [if_neg hlt]
      rfl

theorem SameCore.trans {s t u : State} (h1 : SameCore s t) (h2 : SameCore t u) :
    SameCore s u := by
  unfold SameCore at *
  obtain ⟨a1, a2, a3, a4, a5, a6, a7, a8⟩ := h1
  obtain ⟨b1, b2, b3, b4, b5, b6, b7, b8⟩ := h2
  exact ⟨b1.trans a1, b2.trans a2, b3.trans a3, b4.trans a4, b5.trans a5, b6.trans a6,
    b7.trans a7, b8.trans a8⟩

theorem ramAI_same (cw : Nat) (s : State) : SameCore s (ramAI cw s) := by
  unfold ramAI SameCore
  cases sig cw M_AI <;> simp

theorem ramAO_same (cw : Nat) (s : State) : SameCore s (ramAO cw s) := by
  unfold ramAO SameCore
  cases sig cw M_AO <;> simp

theorem ramBI_same (cw : Nat) (s : State) : SameCore s (ramBI cw s) := by
  unfold ramBI SameCore
  cases sig cw M_BI <;> simp

theorem ramII_same (cw : Nat) (s : State) : SameCore s (ramII cw s) := by
  unfold ramII SameCore
  cases sig cw M_II <;> simp

theorem ramInstrOut_same (cw : Nat) (s : State) : SameCore s (ramInstrOut cw s) := by
  unfold ramInstrOut SameCore
  cases sig cw M_IO <;> simp

theorem ramInstrOut_bus (cw : Nat) (s : State) (h : sig cw M_IO = true) :
    (ramInstrOut cw s).bus = (ramInstrOut cw s).ir &&& 0x0F := by
  unfold ramInstrOut
  rw [h]
  simp

/-- What the register statements leave alone, and the bus under IO. -/
theorem ramRegs_frame (cw : Nat) (s : State) :
    SameCore s (ramRegs cw s) ∧
    (sig cw M_IO = true → (ramRegs cw s).bus = (ramRegs cw s).ir &&& 0x0F) := by
  unfold ramRegs
  exact ⟨((((ramAI_same cw s).trans (ramAO_same cw _)).trans (ramBI_same cw _)).trans
    (ramII_same cw _)).trans (ramInstrOut_same cw _), fun h => ramInstrOut_bus cw _ h⟩

/-- What the RAM-out statement leaves alone. -/
theorem ramRO_frame (cw : Nat) (s t : State) (h : ramRO cw s = some t) :
    SameCore s t := by
  unfold ramRO at h
  unfold SameCore
  cases hb : sig cw M_RO
  · rw [hb] at h
    simp at h
    subst h
    simp
  · rw [hb] at h
    simp only [if_true] at h
    split at h
    · simp at h
      subst h
      simp
    · simp at h

/-- What the RAM-in statement leaves alone, and what it writes. -/
theorem ramRI_frame (cw : Nat) (s t : State) (h : ramRI cw s = some t) :
    t.control_word = s.control_word ∧ t.program_counter = s.program_counter ∧
    t.micro_instruction_counter = s.micro_instruction_counter ∧
    t.flag_carry = s.flag_carry ∧ t.flag_zero = s.flag_zero ∧
    t.alu_result = s.alu_result ∧ t.mar = s.mar ∧
    (sig cw M_RI = false → t.memory = s.memory) ∧
    (sig cw M_RI = true → t.memory = s.memory.set s.mar s.bus) := by
  unfold ramRI at h
  cases hb : sig cw M_RI
  · rw [hb] at h
    simp at h
    subst h
    simp
  · rw [hb] at h
    simp only [if_true] at h
    split at h
    · simp at h
      subst h
      simp
    · simp at h

/-- What the MAR latch leaves alone. -/
theorem ramMI_frame (cw : Nat) (s : State) :
    (ramMI cw s).control_word = s.control_word ∧
    (ramMI cw s).program_counter = s.program_counter ∧
    (ramMI cw s).micro_instruction_counter = s.micro_instruction_counter ∧
    (ramMI cw s).flag_carry = s.flag_carry ∧ (ramMI cw s).flag_zero = s.flag_zero ∧
    (ramMI cw s).alu_result = s.alu_result ∧ (ramMI cw s).memory = s.memory ∧
    (ramMI cw s).bus = s.bus ∧
    (ramMI cw s).mar = if sig cw M_MI then s.bus else s.mar := by
  unfold ramMI
  cases sig cw M_MI <;> simp

/-- What the transfer stage leaves alone, and the bus under IO. -/
theorem ram_module_frame (s t : State) (h : ram_module s = some t) :
    t.control_word = s.control_word ∧ t.program_counter = s.program_counter ∧
    t.micro_instruction_counter = s.micro_instruction_counter ∧
    t.flag_carry = s.flag_carry ∧ t.flag_zero = s.flag_zero ∧
    t.alu_result = s.alu_result ∧
    (sig s.control_word M_IO = true → t.bus = t.ir &&& 0x0F) := by
  rw [ram_module_eq] at h
  simp only [Option.bind_eq_some] at h
  obtain ⟨s2, h2, s3, h3, h⟩ := h
  simp only [Option.some.injEq] at h
  subst h
  have f1 := ramMI_frame s.control_word s
  have f2 := ramRI_frame s.control_word _ _ h2
  have f3 := ramRO_frame s.control_word _ _ h3
  have f4 := ramRegs_frame s.control_word s3
  unfold SameCore at f3 f4
  refine ⟨?_, ?_, ?_, ?_, ?_, ?_, f4.2⟩
  · rw [f4.1.1, f3.1, f2.1, f1.1]
  · rw [f4.1.2.1, f3.2.1, f2.2.1, f1.2.1]
  · rw [f4.1.2.2.1, f3.2.2.1, f2.2.2.1, f1.2.2.1]
  · rw [f4.1.2.2.2.1, f3.2.2.2.1, f2.2.2.2.1, f1.2.2.2.1]
  · rw [f4.1.2.2.2.2.1, f3.2.2.2.2.1, f2.2.2.2.2.1, f1.2.2.2.2.1]
  · rw [f4.1.2.2.2.2.2.1, f3.2.2.2.2.2.1, f2.2.2.2.2.2.1, f1.2.2.2.2.2.1]

/-! ### The decoder, one counter value at a time -/

theorem fetch_at0 (s : State) (h : s.micro_instruction_counter = 0) :
    microcode_fetch s = { s with control_word := M_CO ||| M_MI } := by
  unfold microcode_fetch
  rw [h]

theorem fetch_at1 (s : State) (h : s.micro_instruction_counter = 1) :
    microcode_fetch s = { s with control_word := M_RO ||| M_II ||| M_CE } := by
  unfold microcode_fetch
  rw [h]

theorem fetch_at2 (s : State) (h : s.micro_instruction_counter = 2) :
    microcode_fetch s = fetch2 s (s.ir >>> 4) := by
  unfold microcode_fetch
  rw [h]

theorem fetch_at3 (s : State) (h : s.micro_instruction_counter = 3) :
    microcode_fetch s = fetch3 s (s.ir >>> 4) := by
  unfold microcode_fetch
  rw [h]

/-- The inner switch of step 4 writes only the control word, and leaves 0. -/
theorem fetch4_shape (s : State) (op : Nat) :
    fetch4 s op = { s with control_word := 0 } := by
  unfold fetch4
  split_ifs <;> rfl

theorem fetch_at4 (s : State) (h : s.micro_instruction_counter = 4) :
    microcode_fetch s = { s with control_word := 0, micro_instruction_counter := 0 } := by
  have e : microcode_fetch s =
      { fetch4 s (s.ir >>> 4) with micro_instruction_counter := 0 } := by
    unfold microcode_fetch
    rw [h]
  rw [e, fetch4_shape]

theorem fetch_ge5 (s : State) (h : 5 ≤ s.micro_instruction_counter) :
    microcode_fetch s = { s with micro_instruction_counter := 0 } := by
  unfold microcode_fetch
  split <;> first | omega | rfl

/-- The inner switch of step 2 writes only the control word: one of seven
table words, or (JC, JZ with the flag clear) the previous word. -/
theorem fetch2_shape (s : State) (op : Nat) :
    ∃ w, fetch2 s op = { s with control_word := w } ∧
      (w ∈ [0x0012, 0x0090, 0x4010, 0x0840, 0x0001, 0] ∨ w = s.control_word) := by
  unfold fetch2
  split_ifs
  · exact ⟨_, rfl, Or.inl (by decide)⟩
  · exact ⟨_, rfl, Or.inl (by decide)⟩
  · exact ⟨_, rfl, Or.inl (by decide)⟩
  · exact ⟨_, rfl, Or.inl (by decide)⟩
  · exact ⟨s.control_word, rfl, Or.inr rfl⟩
  · exact ⟨_, rfl, Or.inl (by decide)⟩
  · exact ⟨s.control_word, rfl, Or.inr rfl⟩
  · exact ⟨_, rfl, Or.inl (by decide)⟩
  · exact ⟨_, rfl, Or.inl (by decide)⟩
  · exact ⟨_, rfl, Or.inl (by decide)⟩

/-- The inner switch of step 3 writes only the control word, one of four
table words. -/
theorem fetch3_shape (s : State) (op : Nat) :
    ∃ w, fetch3 s op = { s with control_word := w } ∧ w ∈ [0x0084, 0x0404, 0x0048, 0] := by
  unfold fetch3
  split_ifs
  · exact ⟨_, rfl, by decide⟩
  · exact ⟨_, rfl, by decide⟩
  · exact ⟨_, rfl, by decide⟩
  · exact ⟨_, rfl, by decide⟩

/-- The decoder writes only the control word and the counter. -/
theorem microcode_fetch_shape (s : State) :
    microcode_fetch s =
      { s with control_word := (microcode_fetch s).control_word,
               micro_instruction_counter := (microcode_fetch s).micro_instruction_counter } := by
  have hc : s.micro_instruction_counter = 0 ∨ s.micro_instruction_counter = 1 ∨
      s.micro_instruction_counter = 2 ∨ s.micro_instruction_counter = 3 ∨
      s.micro_instruction_counter = 4 ∨ 5 ≤ s.micro_instruction_counter := by omega
  rcases hc with h | h | h | h | h | h
  · rw [fetch_at0 s h]
  · rw [fetch_at1 s h]
  · obtain ⟨w, hw, _⟩ := fetch2_shape s (s.ir >>> 4)
    rw [fetch_at2 s h, hw]
  · obtain ⟨w, hw, _⟩ := fetch3_shape s (s.ir >>> 4)
    rw [fetch_at3 s h, hw]
  · rw [fetch_at4 s h]
  · rw [fetch_ge5 s h]

/-- The counter the decoder leaves: unchanged up to 3, reset to 0 from 4 on. -/
theorem microcode_fetch_counter (s : State) :
    (s.micro_instruction_counter ≤ 3 →
      (microcode_fetch s).micro_instruction_counter = s.micro_instruction_counter) ∧
    (4 ≤ s.micro_instruction_counter → (microcode_fetch s).micro_instruction_counter = 0) := by
  have hc : s.micro_instruction_counter = 0 ∨ s.micro_instruction_counter = 1 ∨
      s.micro_instruction_counter = 2 ∨ s.micro_instruction_counter = 3 ∨
      s.micro_instruction_counter = 4 ∨ 5 ≤ s.micro_instruction_counter := by omega
  rcases hc with h | h | h | h | h | h
  · rw [fetch_at0 s h]
    exact ⟨fun _ => rfl, fun h4 => by omega⟩
  · rw [fetch_at1 s h]
    exact ⟨fun _ => rfl, fun h4 => by omega⟩
  · obtain ⟨w, hw, _⟩ := fetch2_shape s (s.ir >>> 4)
    rw [fetch_at2 s h, hw]
    exact ⟨fun _ => rfl, fun h4 => by omega⟩
  · obtain ⟨w, hw, _⟩ := fetch3_shape s (s.ir >>> 4)
    rw [fetch_at3 s h, hw]
    exact ⟨fun _ => rfl, fun h4 => by omega⟩
  · rw [fetch_at4 s h]
    exact ⟨fun h3 => by omega, fun _ => rfl⟩
  · rw [fetch_ge5 s h]
    exact ⟨fun h3 => by omega, fun _ => rfl⟩

/-- The control word the decoder leaves is one of the eleven words of its
table, or the previous control word; the latter only for a JC or JZ at
counter 2 or for a counter above 4. -/
theorem microcode_fetch_word (s : State) :
    (microcode_fetch s).control_word ∈
        [0x2002, 0x1024, 0x0012, 0x0090, 0x4010, 0x0840, 0x0001, 0, 0x0084, 0x0404, 0x0048] ∨
    ((microcode_fetch s).control_word = s.control_word ∧
      (s.micro_instruction_counter = 2 ∨ 5 ≤ s.micro_instruction_counter)) := by
  have hc : s.micro_instruction_counter = 0 ∨ s.micro_instruction_counter = 1 ∨
      s.micro_instruction_counter = 2 ∨ s.micro_instruction_counter = 3 ∨
      s.micro_instruction_counter = 4 ∨ 5 ≤ s.micro_instruction_counter := by omega
  rcases hc with h | h | h | h | h | h
  · rw [fetch_at0 s h]
    left
    show M_CO ||| M_MI ∈ _
    decide
  · rw [fetch_at1 s h]
    left
    show M_RO ||| M_II ||| M_CE ∈ _
    decide
  · obtain ⟨w, hw, hm⟩ := fetch2_shape s (s.ir >>> 4)
    rw [fetch_at2 s h, hw]
    rcases hm with hm | hm
    · left
      show w ∈ _
      simp only [List.mem_cons, List.mem_singleton, List.not_mem_nil, or_false] at hm ⊢
      omega
    · exact Or.inr ⟨hm, Or.inl h⟩
  · obtain ⟨w, hw, hm⟩ := fetch3_shape s (s.ir >>> 4)
    rw [fetch_at3 s h, hw]
    left
    show w ∈ _
    simp only [List.mem_cons, List.mem_singleton, List.not_mem_nil, or_false] at hm ⊢
    omega
  · rw [fetch_at4 s h]
    left
    show 0 ∈ _
    decide
  · rw [fetch_ge5 s h]
    exact Or.inr ⟨rfl, Or.inr h⟩

/-- None of the eleven table words asserts EO or FI, each one that asserts
JP also asserts IO, and RO|II|CE does not assert JP. -/
theorem table_word_signals (w : Nat)
    (h : w ∈ [0x2002, 0x1024, 0x0012, 0x0090, 0x4010, 0x0840, 0x0001, 0, 0x0084, 0x0404,
      0x0048]) :
    sig w M_EO = false ∧ sig w M_FI = false ∧ (sig w M_JP = true → sig w M_IO = true) := by
  simp only [List.mem_cons, List.mem_singleton, List.not_mem_nil, or_false] at h
  rcases h with h | h | h | h | h | h | h | h | h | h | h <;> subst h <;> decide

/-- The PC stage writes only `program_counter`. -/
theorem clock_shape (s : State) :
    clock s = { s with program_counter := (clock s).program_counter } := by
  unfold clock
  cases h1 : sig s.control_word M_CE <;> cases h2 : sig s.control_word M_JP <;> simp [h1, h2]

/-- The stage `control` writes only `bus` and `program_counter`. -/
theorem control_shape (s : State) :
    control s = { s with bus := (control s).bus,
                         program_counter := (control s).program_counter } := by
  unfold control
  cases h1 : sig s.control_word M_CO <;> cases h2 : sig s.control_word M_JP <;> simp [h1, h2]

/-- Without FI the ALU leaves both flags alone. -/
theorem alu_flags (s : State) (h : sig s.control_word M_FI = false) :
    (alu s).flag_carry = s.flag_carry ∧ (alu s).flag_zero = s.flag_zero := by
  unfold alu
  cases h1 : sig s.control_word M_EO <;> cases h2 : sig s.control_word M_SU <;> simp [h, h1, h2]

/-- The ALU leaves the control word, the counter and PC alone. -/
theorem alu_frame (s : State) :
    (alu s).control_word = s.control_word ∧
    (alu s).micro_instruction_counter = s.micro_instruction_counter ∧
    (alu s).program_counter = s.program_counter := by
  unfold alu
  cases h1 : sig s.control_word M_EO <;> cases h2 : sig s.control_word M_SU <;>
    cases h3 : sig s.control_word M_FI <;> simp [h1, h2, h3]

/-- Without EO and FI the ALU is the identity. -/
theorem alu_idle (s : State) (h1 : sig s.control_word M_EO = false)
    (h2 : sig s.control_word M_FI = false) : alu s = s := by
  unfold alu
  simp [h1, h2]

/-- The two PC stages keep PC a 4-bit value when the bus is one whenever JP
is asserted. -/
theorem pc_stages_bound (s : State) (hpc : s.program_counter ≤ 15)
    (hbus : sig s.control_word M_JP = true → s.bus ≤ 15) :
    (control (clock s)).program_counter ≤ 15 := by
  have hm : ∀ x : Nat, 15 &&& x ≤ 15 := fun x => Nat.and_le_left
  have hm2 : ∀ x : Nat, x &&& 15 ≤ 15 := fun x => Nat.and_le_right
  unfold control clock
  cases h1 : sig s.control_word M_CE <;> cases h2 : sig s.control_word M_JP <;>
    cases h3 : sig s.control_word M_CO <;> simp [h1, h2, h3, hm, hm2] <;>
    first
      | exact hpc
      | exact hbus h2

/-- A call that returns ran the transfer stage on the decoded state with the
counter incremented, then the PC stages and the ALU. -/
theorem execute_some (s t : State) (h : Nat) (he : microcode_execute s = some (t, h)) :
    ∃ r, ram_module { microcode_fetch s with
            micro_instruction_counter :=
              ((microcode_fetch s).micro_instruction_counter + 1) % 256 } = some r ∧
      t = alu (control (clock r)) := by
  unfold microcode_execute at he
  simp only at he
  split at he
  · simp at he
  · next r hr =>
    simp only [Option.some.injEq, Prod.mk.injEq] at he
    exact ⟨r, hr, he.1.symm⟩

/-- What one returning call does to the control word, the counter, the
flags, `alu_result` and PC, in terms of the decoded control word. -/
theorem execute_facts (s t : State) (h : Nat) (he : microcode_execute s = some (t, h)) :
    t.control_word = (microcode_fetch s).control_word ∧
    t.micro_instruction_counter = ((microcode_fetch s).micro_instruction_counter + 1) % 256 ∧
    (sig (microcode_fetch s).control_word M_FI = false →
      t.flag_carry = s.flag_carry ∧ t.flag_zero = s.flag_zero) ∧
    (sig (microcode_fetch s).control_word M_EO = false →
      sig (microcode_fetch s).control_word M_FI = false → t.alu_result = s.alu_result) ∧
    (s.program_counter ≤ 15 →
      (sig (microcode_fetch s).control_word M_JP = true →
        sig (microcode_fetch s).control_word M_IO = true) →
      t.program_counter ≤ 15) := by
  obtain ⟨r, hr, ht⟩ := execute_some s t h he
  have fr := ram_module_frame _ _ hr
  simp only at fr
  obtain ⟨r1, r2, r3, r4, r5, r6, r7⟩ := fr
  have fs := microcode_fetch_shape s
  have e2 : (microcode_fetch s).program_counter = s.program_counter := by rw [fs]
  have e4 : (microcode_fetch s).flag_carry = s.flag_carry := by rw [fs]
  have e5 : (microcode_fetch s).flag_zero = s.flag_zero := by rw [fs]
  have e6 : (microcode_fetch s).alu_result = s.alu_result := by rw [fs]
  have c1 : (clock r).control_word = r.control_word := by
    rw [clock_shape r]
  have c3 : (clock r).micro_instruction_counter = r.micro_instruction_counter := by
    rw [clock_shape r]
  have c4 : (clock r).flag_carry = r.flag_carry := by
    rw [clock_shape r]
  have c5 : (clock r).flag_zero = r.flag_zero := by
    rw [clock_shape r]
  have c6 : (clock r).alu_result = r.alu_result := by
    rw [clock_shape r]
  have d1 : (control (clock r)).control_word = (clock r).control_word := by
    rw [control_shape (clock r)]
  have d3 : (control (clock r)).micro_instruction_counter =
      (clock r).micro_instruction_counter := by
    rw [control_shape (clock r)]
  have d4 : (control (clock r)).flag_carry = (clock r).flag_carry := by
    rw [control_shape (clock r)]
  have d5 : (control (clock r)).flag_zero = (clock r).flag_zero := by
    rw [control_shape (clock r)]
  have d6 : (control (clock r)).alu_result = (clock r).alu_result := by
    rw [control_shape (clock r)]
  have a := alu_frame (control (clock r))
  have hw : (control (clock r)).control_word = (microcode_fetch s).control_word := by
    rw [d1, c1, r1]
  subst ht
  refine ⟨?_, ?_, ?_, ?_, ?_⟩
  · rw [a.1, hw]
  · rw [a.2.1, d3, c3, r3]
  · intro hFI
    have af := alu_flags (control (clock r)) (by rw [hw]; exact hFI)
    rw [af.1, af.2, d4, d5, c4, c5, r4, r5, e4, e5]
    exact ⟨rfl, rfl⟩
  · intro hEO hFI
    rw [alu_idle (control (clock r)) (by rw [hw]; exact hEO) (by rw [hw]; exact hFI),
      d6, c6, r6, e6]
  · intro hpc hjp
    rw [a.2.2]
    apply pc_stages_bound
    · rw [r2, e2]
      exact hpc
    · intro hJ
      rw [r1] at hJ
      rw [r7 (hjp hJ)]
      exact Nat.and_le_right

/-- The facts `Inv` hold at program start, whatever the memory image. -/
theorem inv_init (mem : List Nat) : Inv (initWith mem) := by
  unfold Inv initWith init
  simp

/-- In a state satisfying `Inv` the decoded control word asserts neither EO
nor FI, and asserts IO whenever it asserts JP. -/
theorem inv_decoded (s : State) (hi : Inv s) :
    sig (microcode_fetch s).control_word M_EO = false ∧
    sig (microcode_fetch s).control_word M_FI = false ∧
    (sig (microcode_fetch s).control_word M_JP = true →
      sig (microcode_fetch s).control_word M_IO = true) ∧
    (1 ≤ s.micro_instruction_counter → (microcode_fetch s).control_word ≠ M_CO ||| M_MI) := by
  obtain ⟨_, _, _, _, hc, h2⟩ := hi
  have key : (microcode_fetch s).control_word ∈
      [0x2002, 0x1024, 0x0012, 0x0090, 0x4010, 0x0840, 0x0001, 0, 0x0084, 0x0404, 0x0048] := by
    rcases microcode_fetch_word s with hw | ⟨hw, hcs⟩
    · exact hw
    · rcases hcs with hcs | hcs
      · rw [hw, h2 hcs]
        decide
      · omega
  have ts := table_word_signals _ key
  refine ⟨ts.1, ts.2.1, ts.2.2, ?_⟩
  intro h1 heq
  have hc' : s.micro_instruction_counter = 1 ∨ s.micro_instruction_counter = 2 ∨
      s.micro_instruction_counter = 3 ∨ s.micro_instruction_counter = 4 := by omega
  rcases hc' with h | h | h | h
  · rw [fetch_at1 s h] at heq
    have heq' : M_RO ||| M_II ||| M_CE = M_CO ||| M_MI := heq
    revert heq'
    decide
  · obtain ⟨w, hw, hm⟩ := fetch2_shape s (s.ir >>> 4)
    rw [fetch_at2 s h, hw] at heq
    have heq' : w = M_CO ||| M_MI := heq
    rcases hm with hm | hm
    · simp only [List.mem_cons, List.mem_singleton, List.not_mem_nil, or_false] at hm
      have : M_CO ||| M_MI = 0x2002 := by decide
      omega
    · rw [hm, h2 h] at heq'
      revert heq'
      decide
  · obtain ⟨w, hw, hm⟩ := fetch3_shape s (s.ir >>> 4)
    rw [fetch_at3 s h, hw] at heq
    have heq' : w = M_CO ||| M_MI := heq
    simp only [List.mem_cons, List.mem_singleton, List.not_mem_nil, or_false] at hm
    have : M_CO ||| M_MI = 0x2002 := by decide
    omega
  · rw [fetch_at4 s h] at heq
    have heq' : 0 = M_CO ||| M_MI := heq
    revert heq'
    decide

/-- A returning call preserves `Inv` and leaves the counter between 1 and 4. -/
theorem inv_step (s t : State) (h : Nat) (hi : Inv s)
    (he : microcode_execute s = some (t, h)) :
    Inv t ∧ 1 ≤ t.micro_instruction_counter := by
  have hd := inv_decoded s hi
  have ef := execute_facts s t h he
  obtain ⟨hpc, hfc, hfz, hres, hc, h2⟩ := hi
  have hcnt := microcode_fetch_counter s
  have hflags := ef.2.2.1 hd.2.1
  have hcase : s.micro_instruction_counter ≤ 3 ∨ s.micro_instruction_counter = 4 := by omega
  have ht : t.micro_instruction_counter =
      if s.micro_instruction_counter = 4 then 1 else s.micro_instruction_counter + 1 := by
    rw [ef.2.1]
    rcases hcase with h3 | h4
    · rw [hcnt.1 h3]
      have : ¬ s.micro_instruction_counter = 4 := by omega
      rw [if_neg this]
      omega
    · rw [hcnt.2 (by omega), if_pos h4]
  refine ⟨⟨ef.2.2.2.2 hpc hd.2.2.1, ?_, ?_, ?_, ?_, ?_⟩, ?_⟩
  · rw [hflags.1, hfc]
  · rw [hflags.2, hfz]
  · rw [ef.2.2.2.1 hd.1 hd.2.1, hres]
  · rw [ht]
    split_ifs <;> omega
  · intro ht2
    rw [ht] at ht2
    have h1 : s.micro_instruction_counter = 1 := by
      split_ifs at ht2 <;> omega
    rw [ef.1, fetch_at1 s h1]
  · rw [ht]
    split_ifs <;> omega

/-- Every state reached from program start satisfies `Inv`, and after at
least one call its counter is between 1 and 4. -/
theorem inv_calls (mem : List Nat) (n : Nat) (t : State)
    (h : calls n (initWith mem) = some t) :
    Inv t ∧ (1 ≤ n → 1 ≤ t.micro_instruction_counter) := by
  induction n generalizing t with
  | zero =>
    simp only [calls, Option.some.injEq] at h
    subst h
    exact ⟨inv_init mem, fun h0 => by omega⟩
  | succ k ih =>
    simp only [calls, Option.bind_eq_some, Option.map_eq_some', Prod.exists,
      exists_and_right, exists_eq_right] at h
    obtain ⟨u, hu, hh, hex⟩ := h
    have := inv_step u t hh (ih u hu).1 hex
    exact ⟨this.1, fun _ => this.2⟩

/-- C11 (as stated, refuted): with `LDI 3` in IR at counter 2, the last
defined step of LDI, the call leaves the counter at 3, not 0, and the next
call decodes control word 0 (step 3 of an opcode without a step 3), not
CO|MI. -/
theorem counter_not_reset_after_last_step :
    ldiFetched.micro_instruction_counter = 2 ∧ ldiFetched.ir >>> 4 = OC_LDI ∧
    (microcode_execute ldiFetched).map (fun p => p.1.micro_instruction_counter) = some 3 ∧
    (microcode_execute ldiFetched).map (fun p => (microcode_fetch p.1).control_word)
      = some 0 ∧
    M_CO ||| M_MI = 0x2002 := by
  decide

/-- C11 (amended): the counter is not reset at an opcode's last defined
step. For every opcode, the decoder leaves the counter alone at counters 2
and 3, and a call made there that returns leaves the counter one higher (3,
respectively 4); the decoder resets the counter to 0 only when it decodes
step 4, for every opcode. -/
theorem counter_reset_only_at_step4 (s : State) :
    ((s.micro_instruction_counter = 2 ∨ s.micro_instruction_counter = 3) →
      (microcode_fetch s).micro_instruction_counter = s.micro_instruction_counter ∧
      ∀ t h, microcode_execute s = some (t, h) →
        t.micro_instruction_counter = s.micro_instruction_counter + 1) ∧
    (s.micro_instruction_counter = 4 → (microcode_fetch s).micro_instruction_counter = 0) := by
  have hc := microcode_fetch_counter s
  refine ⟨fun h23 => ⟨hc.1 (by omega), ?_⟩, fun h4 => hc.2 (by omega)⟩
  intro t h he
  rw [(execute_facts s t h he).2.1, hc.1 (by omega)]
  omega

/-- Witness of C11 (amended): the call made at counter 2 with `HLT` in IR
returns and leaves the counter at 3. -/
theorem counter_reset_only_at_step4_witness :
    microcode_execute { init with micro_instruction_counter := 2, ir := 0xF0 } =
      some ({ init with ir := 0xF0, control_word := 0x0001,
                        micro_instruction_counter := 3 }, 1) ∧
    ({ init with ir := 0xF0, control_word := 0x0001,
                 micro_instruction_counter := 3 } : State).micro_instruction_counter
      = ({ init with micro_instruction_counter := 2, ir := 0xF0 } : State).micro_instruction_counter
        + 1 :=
  ⟨by decide,
   ((counter_reset_only_at_step4
      { init with micro_instruction_counter := 2, ir := 0xF0 }).1 (Or.inl rfl)).2
      { init with ir := 0xF0, control_word := 0x0001, micro_instruction_counter := 3 } 1
      (by decide)⟩

/-! ## Memory indexing -/

/-- C12: on the bundled program the third call leaves MAR = 0x2F while
`memory` has 16 cells (the state `addLatched`); the fourth call decodes
RO|BI, so `ram_module` reads `memory[0x2F]`, an index outside 0..15. -/
theorem bundled_run_indexes_outside_memory :
    calls 3 init = some addLatched ∧
    addLatched.mar = 0x2F ∧ addLatched.memory.length = 16 ∧
    (microcode_fetch addLatched).control_word = M_RO ||| M_BI ∧
    sig (microcode_fetch addLatched).control_word M_RO = true ∧
    addLatched.memory[addLatched.mar]? = none ∧
    microcode_execute addLatched = none := by
  decide

/-! ## The program counter stage -/

/-- C13: `clock` sets PC to (PC + 1) mod 16 when CE is asserted and JP is
not, to the bus value when JP is asserted (with or without CE), and leaves
it unchanged when neither is asserted. -/
theorem clock_program_counter (s : State) :
    (sig s.control_word M_CE = true → sig s.control_word M_JP = false →
      (clock s).program_counter = (s.program_counter + 1) % 16) ∧
    (sig s.control_word M_JP = true → (clock s).program_counter = s.bus) ∧
    (sig s.control_word M_CE = false → sig s.control_word M_JP = false →
      (clock s).program_counter = s.program_counter) := by
  have hm : ∀ x : Nat, x % 256 &&& 15 = x % 16 := by
    intro x
    rw [and_0F]
    omega
  unfold clock
  refine ⟨?_, ?_, ?_⟩
  · intro h1 h2
    simp [h1, h2, hm]
  · intro h2
    cases h1 : sig s.control_word M_CE <;> simp [h1, h2]
  · intro h1 h2
    simp [h1, h2]

/-- Witness of C13: PC = 15 wraps to 0 under RO|II|CE, and IO|JP loads the
bus value 9 although PC was 3. -/
theorem clock_program_counter_witness :
    (clock { init with program_counter := 15, control_word := M_RO ||| M_II ||| M_CE }).program_counter
      = (15 + 1) % 16 ∧
    (clock { init with program_counter := 3, bus := 9,
                       control_word := M_IO ||| M_JP ||| M_CE }).program_counter = 9 :=
  ⟨(clock_program_counter
      { init with program_counter := 15, control_word := M_RO ||| M_II ||| M_CE }).1
      (by decide) (by decide),
   (clock_program_counter
      { init with program_counter := 3, bus := 9,
                  control_word := M_IO ||| M_JP ||| M_CE }).2.1 (by decide)⟩

/-! ## Flag latches -/

/-- C14: when FI is not asserted `alu` leaves `flag_carry` and `flag_zero`
unchanged, and a call of `microcode_execute` whose decoded control word lacks
FI returns with both flags unchanged. -/
theorem flags_gated_by_FI (s : State) :
    (sig s.control_word M_FI = false →
      (alu s).flag_carry = s.flag_carry ∧ (alu s).flag_zero = s.flag_zero) ∧
    (sig (microcode_fetch s).control_word M_FI = false →
      ∀ t h, microcode_execute s = some (t, h) →
        t.flag_carry = s.flag_carry ∧ t.flag_zero = s.flag_zero) :=
  ⟨alu_flags s, fun hFI t h he => (execute_facts s t h he).2.2.1 hFI⟩

/-- Witness of C14: with EO asserted and FI clear the ALU computes 3 + 5 and
leaves the set carry flag and the clear zero flag as they are; the first call
from program start decodes CO|MI, which lacks FI, and returns with both flags
as they were. -/
theorem flags_gated_by_FI_witness :
    ((alu { init with registers0 := 3, registers1 := 5, flag_carry := 1,
                      control_word := M_EO ||| M_AI }).flag_carry = 1 ∧
     (alu { init with registers0 := 3, registers1 := 5, flag_carry := 1,
                      control_word := M_EO ||| M_AI }).flag_zero = 0) ∧
    microcode_execute init =
      some ({ init with control_word := M_CO ||| M_MI, micro_instruction_counter := 1 }, 0) ∧
    ({ init with control_word := M_CO ||| M_MI,
                 micro_instruction_counter := 1 } : State).flag_carry = init.flag_carry :=
  ⟨(flags_gated_by_FI { init with registers0 := 3, registers1 := 5, flag_carry := 1,
                                  control_word := M_EO ||| M_AI }).1 (by decide),
   by decide,
   ((flags_gated_by_FI init).2 (by decide)
      { init with control_word := M_CO ||| M_MI, micro_instruction_counter := 1 } 0
      (by decide)).1⟩

/-! ## Memory writes -/

/-- A control word that asserts MI together with RI, which the decoder never
leaves: with MAR = 0 and bus = 1 the stage latches the bus into MAR first and
then stores, so the cell written is cell 1, the cell at the MAR the store
uses. -/
theorem ram_write_follows_latched_mar :
    ({ init with bus := 1, control_word := M_MI ||| M_RI } : State).mar = 0 ∧
    sig (M_MI ||| M_RI) M_RI = true ∧
    init.memory[1]? = some 0x0F ∧
    (ram_module { init with bus := 1, control_word := M_MI ||| M_RI }).map
      (fun t => (t.memory[1]?, t.memory[0]?, t.mar)) = some (some 1, some 0x2F, 1) := by
  decide

/-- C16: with A = 1, B = 2 and 0 on the bus, running `ram_module`, `clock`,
`control`, `alu` under EO|AI|FI leaves Register A = 0 (the bus value from
before the step), `alu_result` = 2 (computed from the overwritten A) and the
bus still 0; the claim asks for Register A = (1 + 2) mod 256 = 3 with the ALU
result on the bus. -/
theorem add_step_loads_stale_bus :
    (ram_module { init with registers0 := 1, registers1 := 2, bus := 0,
                            control_word := M_EO ||| M_AI ||| M_FI }).map
      (fun t => ((alu (control (clock t))).registers0, (alu (control (clock t))).alu_result,
        (alu (control (clock t))).bus)) = some (0, 2, 0) ∧
    M_EO ||| M_AI ||| M_FI = 0x8180 ∧ (1 + 2) % 256 = 3 := by
  decide

/-- C17: from `staFetched` (counter 2, `STA 5` in IR and on the bus, A = 7)
the call of step 2 latches the whole byte 0x45 into MAR, not the operand 5,
and the call of step 3 then indexes `memory[0x45]`, outside the 16 cells.
Even with MAR = 5 and the operand 5 on the bus, step 3 (AO|RI) stores the bus
value 5 in cell 5, not Register A = 7, because the store precedes A-out. -/
theorem sta_latches_instruction_byte :
    staFetched.micro_instruction_counter = 2 ∧ staFetched.ir = 0x45 ∧
    staFetched.bus = staFetched.ir ∧ staFetched.ir >>> 4 = OC_STA ∧
    (microcode_execute staFetched).map (fun p => (p.1.mar, p.1.bus, p.2)) = some (0x45, 5, 0) ∧
    calls 2 staFetched = none ∧
    (microcode_execute { staFetched with micro_instruction_counter := 3, mar := 5, bus := 5 }).map
      (fun p => (p.1.memory[5]?, p.1.registers0)) = some (some 5, 7) := by
  decide

/-! ## Facts about every state reached from program start -/

/-- C18: for every memory image, in every state reached from program start
by any number of calls, `program_counter` is at most 15. Along the way: the
control word decoded in such a state asserts IO whenever it asserts JP (so
the bus holds IR & 0x0F when PC is overwritten), and at counter 2 the
previous control word, the one a not-taken JC or JZ keeps, is RO|II|CE. -/
theorem program_counter_stays_4bit (mem : List Nat) (n : Nat) (t : State)
    (h : calls n (initWith mem) = some t) :
    t.program_counter ≤ 15 ∧
    (sig (microcode_fetch t).control_word M_JP = true →
      sig (microcode_fetch t).control_word M_IO = true) ∧
    (t.micro_instruction_counter = 2 → t.control_word = M_RO ||| M_II ||| M_CE) := by
  have hi := (inv_calls mem n t h).1
  exact ⟨hi.1, (inv_decoded t hi).2.2.1, hi.2.2.2.2.2⟩

/-- Witness of C18: three calls on the bundled image reach `addLatched`,
where PC = 1. -/
theorem program_counter_stays_4bit_witness :
    calls 3 (initWith memory) = some addLatched ∧ addLatched.program_counter ≤ 15 :=
  ⟨by decide, (program_counter_stays_4bit memory 3 addLatched (by decide)).1⟩

/-- C19: a call that returns leaves the counter at c + 1 when it was c ≤ 3
and at 1 when it was 4 or more, so never at 0. Hence, for every memory image,
after one or more calls from program start the counter is between 1 and 4 and
the control word decoded next is not CO|MI: step 0 is decoded on the first
call only, and later cycles run through steps 1, 2, 3, 4. -/
theorem counter_never_zero_after_call :
    (∀ (s t : State) (h : Nat), microcode_execute s = some (t, h) →
      (s.micro_instruction_counter ≤ 3 →
        t.micro_instruction_counter = s.micro_instruction_counter + 1) ∧
      (4 ≤ s.micro_instruction_counter → t.micro_instruction_counter = 1) ∧
      1 ≤ t.micro_instruction_counter ∧ t.micro_instruction_counter ≤ 4) ∧
    (∀ (mem : List Nat) (n : Nat) (t : State), calls (n + 1) (initWith mem) = some t →
      1 ≤ t.micro_instruction_counter ∧ t.micro_instruction_counter ≤ 4 ∧
      (microcode_fetch t).control_word ≠ M_CO ||| M_MI) := by
  constructor
  · intro s t h he
    have e := (execute_facts s t h he).2.1
    have hc := microcode_fetch_counter s
    have hcase : s.micro_instruction_counter ≤ 3 ∨ 4 ≤ s.micro_instruction_counter := by omega
    rcases hcase with h3 | h4
    · rw [hc.1 h3] at e
      exact ⟨fun _ => by omega, fun h4 => by omega, by omega, by omega⟩
    · rw [hc.2 h4] at e
      exact ⟨fun h3 => by omega, fun _ => by omega, by omega, by omega⟩
  · intro mem n t h
    have hi := inv_calls mem (n + 1) t h
    have h1 := hi.2 (by omega)
    exact ⟨h1, hi.1.2.2.2.2.1, (inv_decoded t hi.1).2.2.2 h1⟩

/-- Witness of C19: the call at counter 4 with `ADD 15` in IR returns with
the counter at 1. -/
theorem counter_never_zero_after_call_witness :
    microcode_execute { init with micro_instruction_counter := 4, ir := 0x2F } =
      some ({ init with micro_instruction_counter := 1, ir := 0x2F }, 0) ∧
    ({ init with micro_instruction_counter := 1, ir := 0x2F } : State).micro_instruction_counter
      = 1 :=
  ⟨by decide,
   (counter_never_zero_after_call.1
      { init with micro_instruction_counter := 4, ir := 0x2F }
      { init with micro_instruction_counter := 1, ir := 0x2F } 0 (by decide)).2.1 (by decide)⟩

/-- C20: if the previous control word asserts neither EO nor FI, the control
word `microcode_fetch` leaves asserts neither, for every IR, counter and
flags. Hence, for every memory image, in every state reached from program
start `flag_carry`, `flag_zero` and `alu_result` are 0, and with JC or JZ in
IR the decoded control word does not assert JP. -/
theorem alu_never_activated :
    (∀ s : State, sig s.control_word M_EO = false → sig s.control_word M_FI = false →
      sig (microcode_fetch s).control_word M_EO = false ∧
      sig (microcode_fetch s).control_word M_FI = false) ∧
    (∀ (mem : List Nat) (n : Nat) (t : State), calls n (initWith mem) = some t →
      t.flag_carry = 0 ∧ t.flag_zero = 0 ∧ t.alu_result = 0 ∧
      ((t.ir >>> 4 = OC_JC ∨ t.ir >>> 4 = OC_JZ) →
        sig (microcode_fetch t).control_word M_JP = false)) := by
  constructor
  · intro s hEO hFI
    rcases microcode_fetch_word s with hw | ⟨hw, _⟩
    · have ts := table_word_signals _ hw
      exact ⟨ts.1, ts.2.1⟩
    · rw [hw]
      exact ⟨hEO, hFI⟩
  · intro mem n t h
    have hi := (inv_calls mem n t h).1
    obtain ⟨_, hfc, hfz, hres, hc, h2⟩ := hi
    refine ⟨hfc, hfz, hres, ?_⟩
    intro hop
    have hcase : t.micro_instruction_counter = 0 ∨ t.micro_instruction_counter = 1 ∨
        t.micro_instruction_counter = 2 ∨ t.micro_instruction_counter = 3 ∨
        t.micro_instruction_counter = 4 := by omega
    rcases hcase with hk | hk | hk | hk | hk
    · rw [fetch_at0 t hk]
      show sig (M_CO ||| M_MI) M_JP = false
      decide
    · rw [fetch_at1 t hk]
      show sig (M_RO ||| M_II ||| M_CE) M_JP = false
      decide
    · have e : fetch2 t (t.ir >>> 4) = t := by
        rcases hop with ho | ho <;>
          simp [fetch2, ho, hfc, hfz, OC_LDA, OC_ADD, OC_SUB, OC_STA, OC_LDI, OC_JMP, OC_JC,
            OC_JZ]
      rw [fetch_at2 t hk, e, h2 hk]
      decide
    · have e : fetch3 t (t.ir >>> 4) = { t with control_word := 0 } := by
        rcases hop with ho | ho <;>
          simp [fetch3, ho, OC_LDA, OC_ADD, OC_SUB, OC_STA, OC_JC, OC_JZ]
      rw [fetch_at3 t hk, e]
      show sig 0 M_JP = false
      decide
    · rw [fetch_at4 t hk]
      show sig 0 M_JP = false
      decide

/-- Witness of C20: the decoder at counter 4 with `ADD 15` in IR and previous
control word RO|BI leaves a word without EO and FI. -/
theorem alu_never_activated_witness :
    sig (microcode_fetch { init with micro_instruction_counter := 4, ir := 0x2F,
                                     control_word := M_RO ||| M_BI }).control_word M_EO = false ∧
    sig (microcode_fetch { init with micro_instruction_counter := 4, ir := 0x2F,
                                     control_word := M_RO ||| M_BI }).control_word M_FI = false :=
  alu_never_activated.1
    { init with micro_instruction_counter := 4, ir := 0x2F, control_word := M_RO ||| M_BI }
    (by decide) (by decide)

end Sap1
